import Mathlib

/-!
Verification of ChefLink's meal-planning service, tool execution layer,
conversation manager, LLM response processing, PDF utilities and
repository layer, as shallowly embedded Lean definitions translated from
the Python sources under `app/`.
-/

namespace ChefLink

/-- Python's `int(...)` applied to an exact rational value: truncation toward
zero. The source computes with binary floats; at every concrete input used in
the theorems below the float computation and the exact rational computation
agree. -/
def pyInt (q : ℚ) : ℤ := if 0 ≤ q then ⌊q⌋ else ⌈q⌉

/-! ## Meal planning service (`app/services/meal_planning_service.py`) -/

/-- Meal slots, from `MealType` in `app/database/models.py`. -/
inductive MealType
  | breakfast
  | lunch
  | dinner
  | snack
deriving DecidableEq

instance : BEq MealType := instBEqOfDecidableEq

/-- Boolean equality on meal types is decidable propositional equality. -/
lemma mealtype_beq_eq_decide (a b : MealType) : (a == b) = decide (a = b) := rfl

/-- Per-meal nutritional targets: the dict with keys `calories`, `protein_g`,
`fat_g`, `carbs_g` built by `MealPlanningService._calculate_meal_targets`. -/
structure MealTargets where
  calories : ℤ
  protein_g : ℤ
  fat_g : ℤ
  carbs_g : ℤ
deriving DecidableEq

/-- Daily macro targets (`macro_targets` dict: `protein_g`, `fat_g`, `carbs_g`). -/
structure DailyMacros where
  protein_g : ℤ
  fat_g : ℤ
  carbs_g : ℤ
deriving DecidableEq

/-- `MealPlanningService.DEFAULT_MEAL_DISTRIBUTION`: 25% breakfast, 35% lunch,
35% dinner, 5% snack, as an association list in the dict's insertion order. -/
def DEFAULT_MEAL_DISTRIBUTION : List (MealType × ℚ) :=
  [(.breakfast, 25/100), (.lunch, 35/100), (.dinner, 35/100), (.snack, 5/100)]

/-- `MealPlanningService._calculate_meal_targets`: copies the default
distribution; when snacks are excluded, removes the snack entry and adds its
portion divided by the number of remaining slots to each of them; then maps
each slot to integer-truncated targets `int(daily * percentage)` for calories
and each macro. -/
def calculate_meal_targets (daily_calories : ℤ) (daily_macros : DailyMacros)
    (include_snacks : Bool) : List (MealType × MealTargets) :=
  let distribution :=
    if include_snacks then DEFAULT_MEAL_DISTRIBUTION
    else
      let snack_portion := ((DEFAULT_MEAL_DISTRIBUTION.lookup MealType.snack).getD 0)
      let remaining := DEFAULT_MEAL_DISTRIBUTION.filter (fun p => ¬ p.1 == MealType.snack)
      let extra_per_meal := snack_portion / (remaining.length : ℚ)
      remaining.map (fun p => (p.1, p.2 + extra_per_meal))
  distribution.map (fun p =>
    (p.1,
      { calories := pyInt ((daily_calories : ℚ) * p.2)
        protein_g := pyInt ((daily_macros.protein_g : ℚ) * p.2)
        fat_g := pyInt ((daily_macros.fat_g : ℚ) * p.2)
        carbs_g := pyInt ((daily_macros.carbs_g : ℚ) * p.2) }))

/-- The fields of a `Recipe` row used by recipe scoring
(`app/database/models.py` / `MealPlanningService._calculate_recipe_score`):
`calories_per_serving` and the `macro_nutrients` JSON dict. -/
structure Recipe where
  calories_per_serving : ℤ
  macro_nutrients : List (String × ℤ)
deriving DecidableEq

/-- Python `dict.get(key, default)` on a string-keyed dict. -/
def dictGetD (d : List (String × ℤ)) (k : String) (v : ℤ) : ℤ :=
  (d.lookup k).getD v

/-- `MealPlanningService._calculate_recipe_score`: percentage deviations of
calories and protein from the targets, with calories weighted twice.
The targets are positive in every reachable call (they come from a positive
calorie/macro budget), so the rational division is the source's division. -/
def calculate_recipe_score (recipe : Recipe) (targets : MealTargets) : ℚ :=
  let calorie_diff :=
    |(recipe.calories_per_serving : ℚ) - (targets.calories : ℚ)| / (targets.calories : ℚ)
  let protein_diff :=
    |(dictGetD recipe.macro_nutrients "protein_g" 0 : ℚ) - (targets.protein_g : ℚ)|
      / (targets.protein_g : ℚ)
  calorie_diff * 2 + protein_diff

/-! ### C4: meal-target distribution -/

/-- C4 counterexample: with snacks excluded, the three per-slot calorie
targets for a 2000-calorie day are 533, 733, 733 (fractions 4/15, 11/30,
11/30 truncated), which sum to 1999, not the 2000 the claim states. -/
theorem C4_snackless_sum_1999 :
    ((calculate_meal_targets 2000 ⟨50, 65, 275⟩ false).map
        (fun p => p.2.calories)).sum = 1999 ∧ (1999 : ℤ) ≠ 2000 := by
  refine ⟨?_, by decide⟩
  norm_num +decide [calculate_meal_targets, DEFAULT_MEAL_DISTRIBUTION, pyInt, List.lookup,
    List.filter, mealtype_beq_eq_decide, Int.floor_eq_iff]

/-- C4 (amended): per-meal calorie targets are the daily target times each
slot's fraction truncated to integers, with the snack fraction redistributed
evenly when snacks are excluded. For a 2000-calorie daily target the per-slot
targets are 500, 700, 700, 100 (sum 2000) with snacks included, and 533, 733,
733 (sum 1999 — truncation loses one calorie) with snacks excluded. -/
theorem C4_meal_targets :
    (calculate_meal_targets 2000 ⟨50, 65, 275⟩ true).map
        (fun p => (p.1, p.2.calories)) =
      [(.breakfast, 500), (.lunch, 700), (.dinner, 700), (.snack, 100)] ∧
    ((calculate_meal_targets 2000 ⟨50, 65, 275⟩ true).map
        (fun p => p.2.calories)).sum = 2000 ∧
    (calculate_meal_targets 2000 ⟨50, 65, 275⟩ false).map
        (fun p => (p.1, p.2.calories)) =
      [(.breakfast, 533), (.lunch, 733), (.dinner, 733)] ∧
    ((calculate_meal_targets 2000 ⟨50, 65, 275⟩ false).map
        (fun p => p.2.calories)).sum = 1999 := by
  refine ⟨?_, ?_, ?_, ?_⟩ <;>
    norm_num +decide [calculate_meal_targets, DEFAULT_MEAL_DISTRIBUTION, pyInt, List.lookup,
      List.filter, mealtype_beq_eq_decide, Int.floor_eq_iff]

/-! ### C8: recipe scoring -/

/-- C8: the recipe score equals
`2 * |calories - target| / target + |protein - target| / target`; for a
target of 500 kcal / 30 g protein, candidates at (550, 30) and (500, 24)
both score exactly 1/5, and a candidate at (600, 30) scores strictly worse
than the (500, 24) candidate. -/
theorem C8_recipe_score :
    (∀ (r : Recipe) (t : MealTargets),
      calculate_recipe_score r t =
        2 * |(r.calories_per_serving : ℚ) - (t.calories : ℚ)| / (t.calories : ℚ)
          + |((r.macro_nutrients.lookup "protein_g").getD 0 : ℚ) - (t.protein_g : ℚ)|
              / (t.protein_g : ℚ)) ∧
    calculate_recipe_score ⟨550, [("protein_g", 30)]⟩ ⟨500, 30, 0, 0⟩ = 1/5 ∧
    calculate_recipe_score ⟨500, [("protein_g", 24)]⟩ ⟨500, 30, 0, 0⟩ = 1/5 ∧
    calculate_recipe_score ⟨600, [("protein_g", 30)]⟩ ⟨500, 30, 0, 0⟩ >
      calculate_recipe_score ⟨500, [("protein_g", 24)]⟩ ⟨500, 30, 0, 0⟩ := by
  refine ⟨fun r t => ?_, ?_, ?_, ?_⟩
  · unfold calculate_recipe_score dictGetD
    ring
  all_goals
    norm_num [calculate_recipe_score, dictGetD, List.lookup, abs_of_nonneg, abs_of_nonpos]

/-! ## Tool registry (`app/core/tools/registry.py`) -/

/-- `ToolCategory`: the functional domain of a tool. -/
inductive ToolCategory
  | meal_planning
  | recipe_search
  | nutrition
  | user_preferences
deriving DecidableEq

/-- A Python value as passed in a tool parameter map or returned by a tool. -/
inductive PyValue
  | str (s : String)
  | int (n : ℤ)
  | arr (vs : List PyValue)

/-- `ToolParameter`: one parameter of a tool definition. -/
structure ToolParameter where
  name : String
  type : String
  description : String
  required : Bool := true
  enum : Option (List String) := none
deriving DecidableEq

/-- Outcome of running a tool's executor function: a returned value or a
raised exception carrying its message. -/
inductive ExecOutcome
  | ok (value : PyValue)
  | exc (msg : String)

/-- `Tool`: a registered tool; `executor` is `none` until a `ToolExecutor`
attaches one. -/
structure Tool where
  name : String
  description : String
  category : ToolCategory
  parameters : List ToolParameter
  executor : Option (List (String × PyValue) → ExecOutcome) := none

/-- The registry contents built by `ToolRegistry._initialize_tools`, in
registration order, before any executor is attached. -/
def toolRegistry : List Tool :=
  [ { name := "create_meal_plan"
      description := "Create a new meal plan for the user"
      category := .meal_planning
      parameters :=
        [ { name := "date", type := "string"
            description := "Date for the meal plan (YYYY-MM-DD format)" },
          { name := "meals", type := "array"
            description := "List of meals with recipe_id, meal_type, and servings" } ] },
    { name := "update_meal_plan"
      description := "Update an existing meal plan"
      category := .meal_planning
      parameters :=
        [ { name := "date", type := "string"
            description := "Date of the meal plan to update (YYYY-MM-DD format)" },
          { name := "meal_type", type := "string"
            description := "Type of meal to update"
            enum := some ["breakfast", "lunch", "dinner", "snack"] },
          { name := "recipe_id", type := "string"
            description := "ID of the new recipe" },
          { name := "servings", type := "integer"
            description := "Number of servings" } ] },
    { name := "get_meal_plans"
      description := "Retrieve user's meal plans for a date range"
      category := .meal_planning
      parameters :=
        [ { name := "start_date", type := "string"
            description := "Start date (YYYY-MM-DD format)", required := false },
          { name := "end_date", type := "string"
            description := "End date (YYYY-MM-DD format)", required := false },
          { name := "days", type := "integer"
            description := "Number of days to retrieve", required := false } ] },
    { name := "search_recipes"
      description := "Search for recipes based on various criteria"
      category := .recipe_search
      parameters :=
        [ { name := "query", type := "string"
            description := "Search query for recipe names or ingredients"
            required := false },
          { name := "main_protein", type := "array"
            description := "Filter by main protein types", required := false },
          { name := "max_calories", type := "integer"
            description := "Maximum calories per serving", required := false },
          { name := "min_protein", type := "number"
            description := "Minimum protein in grams", required := false },
          { name := "limit", type := "integer"
            description := "Maximum number of results", required := false } ] },
    { name := "get_recipe_details"
      description := "Get detailed information about a specific recipe"
      category := .recipe_search
      parameters :=
        [ { name := "recipe_id", type := "string"
            description := "The unique ID of the recipe" } ] },
    { name := "analyze_nutrition"
      description := "Analyze nutritional content of a meal or day"
      category := .nutrition
      parameters :=
        [ { name := "date", type := "string"
            description := "Date to analyze (YYYY-MM-DD format)" },
          { name := "meal_type", type := "string"
            description := "Specific meal to analyze", required := false
            enum := some ["breakfast", "lunch", "dinner", "snack", "all"] } ] },
    { name := "update_dietary_preferences"
      description := "Update user's dietary preferences and restrictions"
      category := .user_preferences
      parameters :=
        [ { name := "preferences", type := "object"
            description := "Dictionary of dietary preferences" } ] },
    { name := "get_user_preferences"
      description := "Retrieve user's current dietary preferences"
      category := .user_preferences
      parameters := [] } ]

/-! ## Tool executor dispatch (`app/core/tools/executor.py`, C1) -/

/-- The structured result dictionary `execute` returns:
`{success: true, result}` or `{success: false, error}`. -/
inductive ToolResult
  | success (result : PyValue)
  | failure (error : String)

/-- What a call to `ToolExecutor.execute` does as seen by its caller: either
an exception propagates out of the method (`raised`), or a structured result
dictionary is returned (`result`). -/
inductive ExecuteOutcome
  | raised (msg : String)
  | result (r : ToolResult)

/-- Python's `key in parameters` membership test on the parameter dict. -/
def pyContains (parameters : List (String × PyValue)) (k : String) : Bool :=
  (parameters.lookup k).isSome

/-- Python's `value in enum_list` membership test: the parameter value is
compared against the allowed strings (a non-string value matches none). -/
def pyValueInStrings (v : PyValue) (allowed : List String) : Bool :=
  match v with
  | .str s => allowed.contains s
  | _ => false

/-- `ToolExecutor._validate_parameters`: walks the tool's parameters in
order; raises on the first missing required parameter, and on the first
enum-constrained parameter (non-empty enum, as Python truthiness tests the
list) whose supplied value is not among the allowed values. Returns the
raised message, or `none` when validation passes. -/
def validate_parameters (tool : Tool) (parameters : List (String × PyValue)) :
    Option String :=
  tool.parameters.findSome? (fun param =>
    if param.required ∧ ¬ pyContains parameters param.name then
      some ("Missing required parameter: " ++ param.name)
    else
      match param.enum with
      | some allowed =>
        if allowed ≠ [] ∧ pyContains parameters param.name then
          match parameters.lookup param.name with
          | some v =>
            if pyValueInStrings v allowed then none
            else some ("Invalid value for " ++ param.name)
          | none => none
        else none
      | none => none)

/-- `ToolExecutor.execute`: looks the tool up in the registry and raises
`ValueError` if it is unknown or has no executor attached (these two checks
sit before the `try` block); otherwise validates parameters and invokes the
executor inside the `try`, so validation errors and executor exceptions are
caught and returned as `{success: false, error}` while a normal return is
wrapped as `{success: true, result}`. -/
def execute (registry : List Tool) (tool_name : String)
    (parameters : List (String × PyValue)) : ExecuteOutcome :=
  match registry.find? (fun t => t.name == tool_name) with
  | none => .raised ("Tool '" ++ tool_name ++ "' not found")
  | some tool =>
    match tool.executor with
    | none => .raised ("No executor registered for tool '" ++ tool_name ++ "'")
    | some ex =>
      match validate_parameters tool parameters with
      | some msg => .result (.failure msg)
      | none =>
        match ex parameters with
        | .ok v => .result (.success v)
        | .exc msg => .result (.failure msg)

/-- Whether the caller of `execute` received a structured result dictionary
(as opposed to an exception propagating). -/
def isStructured : ExecuteOutcome → Bool
  | .raised _ => false
  | .result _ => true

/-- C1 counterexample: with the registry as initialized (and likewise for any
registry state), `execute` on the unknown tool name `"bogus_tool"` raises
`ValueError("Tool 'bogus_tool' not found")` instead of returning a structured
`{success: false, error}` result, and on `"update_meal_plan"` before an
executor is attached it raises the no-executor `ValueError`. -/
theorem C1_unknown_tool_raises :
    execute toolRegistry "bogus_tool" [] = .raised "Tool 'bogus_tool' not found" ∧
    isStructured (execute toolRegistry "bogus_tool" []) = false ∧
    execute toolRegistry "update_meal_plan" [] =
      .raised "No executor registered for tool 'update_meal_plan'" ∧
    isStructured (execute toolRegistry "update_meal_plan" []) = false := by
  refine ⟨rfl, rfl, rfl, rfl⟩

/-- C1 (amended): `execute` raises `ValueError` for a tool name that is not
in the registry and for a registered tool with no executor attached; for a
registered tool with an executor it always returns a structured result
dictionary — validation errors and executor exceptions are caught and
returned as `{success: false, error}`, never re-raised. -/
theorem C1_execute_structured :
    ∀ (registry : List Tool) (tool_name : String)
      (parameters : List (String × PyValue)),
      (registry.find? (fun t => t.name == tool_name) = none →
        execute registry tool_name parameters =
          .raised ("Tool '" ++ tool_name ++ "' not found")) ∧
      (∀ tool, registry.find? (fun t => t.name == tool_name) = some tool →
        tool.executor = none →
        execute registry tool_name parameters =
          .raised ("No executor registered for tool '" ++ tool_name ++ "'")) ∧
      (∀ tool f, registry.find? (fun t => t.name == tool_name) = some tool →
        tool.executor = some f →
        isStructured (execute registry tool_name parameters) = true) := by
  intro registry tool_name parameters
  refine ⟨fun h => ?_, fun tool h he => ?_, fun tool f h he => ?_⟩
  · simp [execute, h]
  · simp [execute, h, he]
  · simp only [execute, h, he]
    cases validate_parameters tool parameters with
    | none => cases f parameters <;> rfl
    | some msg => rfl

/-- A trivial executor used to witness the executor-attached case. -/
def echo_executor : List (String × PyValue) → ExecOutcome :=
  fun _ => .ok (.str "ok")

/-- A registered tool with an executor attached, as after
`ToolExecutor._register_executors` runs. -/
def probe_tool : Tool :=
  { name := "probe_echo"
    description := "echoes a fixed value"
    category := .nutrition
    parameters := []
    executor := some echo_executor }

/-- Witness for `C1_execute_structured` at a concrete registry. -/
theorem C1_execute_structured_witness :
    [probe_tool].find? (fun t => t.name == "probe_echo") = some probe_tool ∧
    probe_tool.executor = some echo_executor ∧
    isStructured (execute [probe_tool] "probe_echo" []) = true := by
  refine ⟨rfl, rfl, ?_⟩
  exact (C1_execute_structured [probe_tool] "probe_echo" []).2.2 probe_tool
    echo_executor rfl rfl

/-! ## update_meal_plan (`ToolExecutor._execute_update_meal_plan`, C2) -/

/-- A calendar date as produced by `datetime.strptime(_, "%Y-%m-%d").date()`. -/
structure Date where
  year : ℕ
  month : ℕ
  day : ℕ
deriving DecidableEq

instance : BEq Date := instBEqOfDecidableEq

/-- Boolean equality on dates is decidable propositional equality. -/
lemma date_beq_eq_decide (a b : Date) : (a == b) = decide (a = b) := rfl

/-- Python's `str.split('-')`. -/
def split_dash : List Char → List (List Char)
  | [] => [[]]
  | c :: rest =>
    let r := split_dash rest
    if c = '-' then [] :: r else (c :: r.headI) :: r.tail

/-- A non-empty all-digit character run read as a natural number. -/
def parse_nat? (l : List Char) : Option ℕ :=
  if l ≠ [] ∧ l.all Char.isDigit then
    some (l.foldl (fun n c => 10 * n + (c.toNat - '0'.toNat)) 0)
  else none

/-- Models `datetime.strptime(date_str, "%Y-%m-%d").date()`: three
dash-separated numeric components with the month in 1..12 and the day in
1..31, `none` when strptime would raise `ValueError`. (Real strptime also
checks the day against the month's length; the theorems below quantify over
successfully parsed dates, so that refinement is immaterial here.) -/
def strptime_date (s : String) : Option Date :=
  match split_dash s.toList with
  | [y, m, d] =>
    match parse_nat? y, parse_nat? m, parse_nat? d with
    | some yn, some mn, some dn =>
      if 1 ≤ mn ∧ mn ≤ 12 ∧ 1 ≤ dn ∧ dn ≤ 31 then some ⟨yn, mn, dn⟩ else none
    | _, _, _ => none
  | _ => none

/-- A `meal_plans` row (`MealPlan` in `app/database/models.py`), restricted
to the columns `_execute_update_meal_plan` reads or writes; `status` and the
timestamp columns are carried by defaults and never consulted by this tool. -/
structure MealPlan where
  user_id : ℕ
  recipe_id : String
  date : Date
  meal_type : String
  servings : ℤ
deriving DecidableEq

/-- The `WHERE` clause of the lookup in `_execute_update_meal_plan`:
`user_id == ... AND date == ... AND meal_type == ...`. -/
def meal_plan_matches (user_id : ℕ) (d : Date) (meal_type : String)
    (mp : MealPlan) : Bool :=
  mp.user_id == user_id && mp.date == d && mp.meal_type == meal_type

/-- In-place mutation of the first row satisfying `p`, as SQLAlchemy ORM
attribute assignment on the row returned by `.first()`. -/
def updateFirst {α : Type} (p : α → Bool) (f : α → α) : List α → List α
  | [] => []
  | x :: xs => if p x then f x :: xs else x :: updateFirst p f xs

/-- `ToolExecutor._execute_update_meal_plan` acting on the user's meal-plan
table: parses the date (`none` models the strptime `ValueError`, which
`execute` catches into a failure result), finds the first row for
(acting user, date, meal slot), mutates its `recipe_id` and `servings` in
place when present, and inserts a fresh row otherwise. The returned flag is
the response's `updated` field (`bool(existing)`). Recipe ids are the
string UUIDs supplied by the caller (well-formed ids assumed: a malformed id
would raise in `UUID(...)` and likewise surface as a failure result). -/
def execute_update_meal_plan (db : List MealPlan) (user_id : ℕ)
    (date_str meal_type recipe_id : String) (servings : ℤ) :
    Option (List MealPlan × Bool) :=
  match strptime_date date_str with
  | none => none
  | some meal_date =>
    match db.find? (meal_plan_matches user_id meal_date meal_type) with
    | some _existing =>
      some (updateFirst (meal_plan_matches user_id meal_date meal_type)
        (fun mp => { mp with recipe_id := recipe_id, servings := servings }) db, true)
    | none =>
      some (db ++ [{ user_id := user_id, recipe_id := recipe_id, date := meal_date,
                     meal_type := meal_type, servings := servings }], false)

/-- How many rows of the table occupy the given (user, date, meal slot). -/
def count_matching (db : List MealPlan) (user_id : ℕ) (d : Date)
    (meal_type : String) : ℕ :=
  (db.filter (meal_plan_matches user_id d meal_type)).length

/-- `updateFirst` never changes the number of rows. -/
lemma length_updateFirst {α : Type} (p : α → Bool) (f : α → α) :
    ∀ l : List α, (updateFirst p f l).length = l.length := by
  intro l
  induction l with
  | nil => rfl
  | cons x xs ih =>
    by_cases h : p x <;> simp [updateFirst, h, ih]

/-- If the mutation preserves the predicate, `updateFirst` preserves the
number of rows satisfying it. -/
lemma filter_updateFirst_length {α : Type} (p : α → Bool) (f : α → α)
    (hf : ∀ x, p (f x) = p x) :
    ∀ l : List α, ((updateFirst p f l).filter p).length = (l.filter p).length := by
  intro l
  induction l with
  | nil => rfl
  | cons x xs ih =>
    by_cases h : p x <;> simp [updateFirst, h, hf, ih]

/-- `updateFirst` passes over a prefix with no matching row. -/
lemma updateFirst_append_of_none {α : Type} (p : α → Bool) (f : α → α)
    (l₁ l₂ : List α) (h : ∀ x ∈ l₁, p x = false) :
    updateFirst p f (l₁ ++ l₂) = l₁ ++ updateFirst p f l₂ := by
  induction l₁ with
  | nil => rfl
  | cons x xs ih =>
    have hx := h x (by simp)
    simp only [List.cons_append, updateFirst, hx]
    simp only [Bool.false_eq_true, if_false, List.cons.injEq, true_and]
    exact ih (fun y hy => h y (by simp [hy]))

/-- `find?` skips a prefix with no matching row. -/
lemma find?_append_of_none {α : Type} (p : α → Bool) (l₁ l₂ : List α)
    (h : ∀ x ∈ l₁, p x = false) :
    (l₁ ++ l₂).find? p = l₂.find? p := by
  induction l₁ with
  | nil => rfl
  | cons x xs ih =>
    have hx := h x (by simp)
    simp only [List.cons_append, List.find?, hx]
    exact ih (fun y hy => h y (by simp [hy]))

/-- Zero matching rows means every row fails the predicate. -/
lemma forall_not_of_count_zero (db : List MealPlan) (u : ℕ) (d : Date)
    (mt : String) (h : count_matching db u d mt = 0) :
    ∀ mp ∈ db, meal_plan_matches u d mt mp = false := by
  intro mp hmp
  have := List.filter_eq_nil_iff.mp (List.length_eq_zero.mp h) mp hmp
  simpa using this

/-- The freshly inserted row occupies exactly the requested slot. -/
lemma matches_new_row (u : ℕ) (d : Date) (mt rid : String) (s : ℤ) :
    meal_plan_matches u d mt
      { user_id := u, recipe_id := rid, date := d, meal_type := mt,
        servings := s } = true := by
  simp [meal_plan_matches]

/-- Mutating `recipe_id` and `servings` does not change which slot a row
occupies. -/
lemma matches_after_mutation (u : ℕ) (d : Date) (mt rid : String) (s : ℤ)
    (mp : MealPlan) :
    meal_plan_matches u d mt { mp with recipe_id := rid, servings := s } =
      meal_plan_matches u d mt mp := rfl

/-- C2: `update_meal_plan` preserves the uniqueness of (user, date, meal
slot). When a plan already exists for the slot the row is mutated in place
and no row is created; starting from a table with no row in the slot, two
successive calls with different recipes leave exactly one row in the slot,
bearing the second recipe and servings, with the table one row longer than
at the start. -/
theorem C2_update_meal_plan_upsert :
    ∀ (db : List MealPlan) (u : ℕ) (ds mt r1 r2 : String) (s1 s2 : ℤ) (d : Date),
      strptime_date ds = some d →
      ((∀ existing, db.find? (meal_plan_matches u d mt) = some existing →
        execute_update_meal_plan db u ds mt r1 s1 =
          some (updateFirst (meal_plan_matches u d mt)
            (fun mp => { mp with recipe_id := r1, servings := s1 }) db, true) ∧
        (updateFirst (meal_plan_matches u d mt)
            (fun mp => { mp with recipe_id := r1, servings := s1 }) db).length =
          db.length ∧
        count_matching (updateFirst (meal_plan_matches u d mt)
            (fun mp => { mp with recipe_id := r1, servings := s1 }) db) u d mt =
          count_matching db u d mt) ∧
      (count_matching db u d mt = 0 →
        ∃ db1 db2,
          execute_update_meal_plan db u ds mt r1 s1 = some (db1, false) ∧
          execute_update_meal_plan db1 u ds mt r2 s2 = some (db2, true) ∧
          db1.length = db.length + 1 ∧
          db2.length = db.length + 1 ∧
          count_matching db2 u d mt = 1 ∧
          ∀ mp ∈ db2, meal_plan_matches u d mt mp = true →
            mp.recipe_id = r2 ∧ mp.servings = s2)) := by
  intro db u ds mt r1 r2 s1 s2 d hparse
  constructor
  · intro existing hfind
    refine ⟨?_, length_updateFirst _ _ db, ?_⟩
    · simp [execute_update_meal_plan, hparse, hfind]
    · exact filter_updateFirst_length _ _
        (fun mp => matches_after_mutation u d mt r1 s1 mp) db
  · intro hzero
    have hnone : db.find? (meal_plan_matches u d mt) = none :=
      List.find?_eq_none.mpr (fun mp hmp => by
        simp [forall_not_of_count_zero db u d mt hzero mp hmp])
    set row1 : MealPlan :=
      { user_id := u, recipe_id := r1, date := d, meal_type := mt, servings := s1 }
      with hrow1
    set row2 : MealPlan :=
      { user_id := u, recipe_id := r2, date := d, meal_type := mt, servings := s2 }
      with hrow2
    refine ⟨db ++ [row1], db ++ [row2], ?_, ?_, by simp, by simp, ?_, ?_⟩
    · simp [execute_update_meal_plan, hparse, hnone]
    · have hfind1 : (db ++ [row1]).find? (meal_plan_matches u d mt) = some row1 := by
        rw [find?_append_of_none _ db [row1]
          (forall_not_of_count_zero db u d mt hzero)]
        simp [List.find?, hrow1, matches_new_row]
      have hupd : updateFirst (meal_plan_matches u d mt)
          (fun mp => { mp with recipe_id := r2, servings := s2 }) (db ++ [row1]) =
          db ++ [row2] := by
        rw [updateFirst_append_of_none _ _ db [row1]
          (forall_not_of_count_zero db u d mt hzero)]
        simp [updateFirst, matches_new_row, hrow1, hrow2]
      simp [execute_update_meal_plan, hparse, hfind1, hupd]
    · unfold count_matching
      rw [List.filter_append]
      have : db.filter (meal_plan_matches u d mt) = [] := by
        rw [List.filter_eq_nil_iff]
        intro mp hmp
        simp [forall_not_of_count_zero db u d mt hzero mp hmp]
      simp [this, hrow2, matches_new_row]
    · intro mp hmp hmatch
      rcases List.mem_append.mp hmp with h | h
      · exact absurd hmatch (by
          simp [forall_not_of_count_zero db u d mt hzero mp h])
      · have : mp = row2 := by simpa using h
        subst this
        exact ⟨rfl, rfl⟩

/-- Witness for `C2_update_meal_plan_upsert`: starting from an empty table,
the date parses and both clauses apply; the second clause yields the
single-row table bearing the second recipe. -/
theorem C2_update_meal_plan_upsert_witness :
    strptime_date "2025-08-06" = some ⟨2025, 8, 6⟩ ∧
    count_matching [] 7 ⟨2025, 8, 6⟩ "lunch" = 0 ∧
    (∃ db1 db2,
      execute_update_meal_plan [] 7 "2025-08-06" "lunch" "recipe-a" 1 =
        some (db1, false) ∧
      execute_update_meal_plan db1 7 "2025-08-06" "lunch" "recipe-b" 2 =
        some (db2, true) ∧
      db1.length = ([] : List MealPlan).length + 1 ∧
      db2.length = ([] : List MealPlan).length + 1 ∧
      count_matching db2 7 ⟨2025, 8, 6⟩ "lunch" = 1 ∧
      ∀ mp ∈ db2, meal_plan_matches 7 ⟨2025, 8, 6⟩ "lunch" mp = true →
        mp.recipe_id = "recipe-b" ∧ mp.servings = 2) := by
  refine ⟨by decide, by decide, ?_⟩
  exact (C2_update_meal_plan_upsert [] 7 "2025-08-06" "lunch" "recipe-a"
    "recipe-b" 1 2 ⟨2025, 8, 6⟩ (by decide)).2 (by decide)

/-! ## Feature flags and handler response mode (C3) -/

/-- `FeatureFlags._load_flags` (`app/core/feature_flags.py`): reads
`USE_AGENTIC_WORKFLOW` from the environment, lower-cases it and compares to
`"true"`, then stores the flags `agentic_workflow` and
`increased_context_window` (both equal to the toggle) and `debug_mode`. -/
def load_flags (env : List (String × String)) : List (String × Bool) :=
  let use_agentic :=
    String.mk (((env.lookup "USE_AGENTIC_WORKFLOW").getD "false").toList.map
      Char.toLower) == "true"
  [("agentic_workflow", use_agentic),
   ("increased_context_window", use_agentic),
   ("debug_mode",
    String.mk (((env.lookup "DEBUG_MODE").getD "false").toList.map
      Char.toLower) == "true")]

/-- `FeatureFlags.is_enabled`: a dict lookup defaulting to `False`; the
`user_id` argument is ignored by the source. -/
def is_enabled (flags : List (String × Bool)) (flag_name : String) : Bool :=
  (flags.lookup flag_name).getD false

/-- `ResponseMode` from `family_v3_refactored.py`. -/
inductive ResponseMode
  | direct
  | agentic
deriving DecidableEq

/-- The response-mode selection in `FamilyHandlerV3.__init__`: the handler
queries the flag name `"AGENTIC_WORKFLOW"` (upper case). -/
def handler_response_mode (flags : List (String × Bool)) : ResponseMode :=
  if is_enabled flags "AGENTIC_WORKFLOW" then .agentic else .direct

/-- C3: with `USE_AGENTIC_WORKFLOW=true` in the environment the flag store
holds `agentic_workflow = true`, yet the handler constructed in that process
is in direct mode: `FamilyHandlerV3.__init__` asks `is_enabled` for the key
`"AGENTIC_WORKFLOW"`, which is not a key of the flag dict (the stored key is
lower-case `"agentic_workflow"`), so the lookup defaults to `False` for
every environment. -/
theorem C3_agentic_mode_unreachable :
    is_enabled (load_flags [("USE_AGENTIC_WORKFLOW", "true")])
      "agentic_workflow" = true ∧
    handler_response_mode (load_flags [("USE_AGENTIC_WORKFLOW", "true")]) =
      .direct ∧
    ∀ env : List (String × String),
      handler_response_mode (load_flags env) = .direct := by
  refine ⟨by decide, by decide, fun env => ?_⟩
  simp [handler_response_mode, is_enabled, load_flags, List.lookup]

/-! ## Conversation context (`app/core/conversation/manager.py`, C7) -/

/-- `Message.estimate_tokens`: one token per four characters of content,
memoized into `token_count` on first computation. -/
def estimate_tokens (content : String) : ℕ := content.length / 4

/-- A conversation message with its memoized token estimate. The timestamp
and metadata fields are never consulted by token accounting or compression
and are omitted. -/
structure Message where
  role : String
  content : String
  token_count : ℕ
deriving DecidableEq

/-- The synthetic system message content prepended on the first compression. -/
def COMPRESSION_SUMMARY : String :=
  "[Previous conversation history compressed. Key context maintained.]"

/-- `ConversationContext` state: the bounded message deque, the running
token estimate, and the compression counter. `deque_maxlen` is the deque's
physical bound (`max_messages * 2` at construction); `_compress_context`
replaces the deque with a fresh unbounded one, so the bound is dropped
after the first compression. -/
structure ConversationContext where
  max_tokens : ℕ
  max_messages : ℕ
  system_prompt : Option String
  messages : List Message
  deque_maxlen : Option ℕ
  total_tokens : ℕ
  compression_count : ℕ

/-- `ConversationContext.__init__`. -/
def mkConversationContext (max_tokens max_messages : ℕ)
    (system_prompt : Option String) : ConversationContext :=
  { max_tokens := max_tokens
    max_messages := max_messages
    system_prompt := system_prompt
    messages := []
    deque_maxlen := some (max_messages * 2)
    total_tokens := 0
    compression_count := 0 }

/-- `collections.deque.append` with an optional `maxlen`: appending to a
full deque silently discards from the left. -/
def deque_append (maxlen : Option ℕ) (l : List Message) (m : Message) :
    List Message :=
  let l' := l ++ [m]
  match maxlen with
  | none => l'
  | some k => if k < l'.length then l'.drop (l'.length - k) else l'

/-- One step of the newest-to-oldest compression scan in
`_compress_context`: keep the message while the running count stays within
70% of the ceiling; past that, keep only `user`-role messages up to the full
ceiling. -/
def compress_step (target max_tokens : ℕ) (st : List Message × ℕ)
    (message : Message) : List Message × ℕ :=
  if st.2 + message.token_count ≤ target then
    (message :: st.1, st.2 + message.token_count)
  else if message.role = "user" ∧ st.2 + message.token_count ≤ max_tokens then
    (message :: st.1, st.2 + message.token_count)
  else st

/-- The token estimate charged for the system prompt during compression
(`if self.system_prompt: current_tokens += len(self.system_prompt) // 4`;
an absent or empty prompt charges zero either way). -/
def system_prompt_tokens (ctx : ConversationContext) : ℕ :=
  (ctx.system_prompt.getD "").length / 4

/-- `ConversationContext._compress_context`: increments the compression
counter, rebuilds the queue newest-to-oldest into a fresh (unbounded) deque
targeting 70% of the ceiling (`int(max_tokens * 0.7)`, exact for the 8000
default), and on the first compression only prepends the synthetic summary
message, adding its token estimate to the recomputed total. -/
def compress_context (ctx : ConversationContext) : ConversationContext :=
  let count' := ctx.compression_count + 1
  let target := ctx.max_tokens * 7 / 10
  let st := ctx.messages.reverse.foldl
    (compress_step target ctx.max_tokens) ([], system_prompt_tokens ctx)
  let ctx' := { ctx with
    messages := st.1
    total_tokens := st.2
    compression_count := count'
    deque_maxlen := none }
  if count' == 1 then
    let summary : Message :=
      { role := "system", content := COMPRESSION_SUMMARY
        token_count := estimate_tokens COMPRESSION_SUMMARY }
    { ctx' with
      messages := summary :: ctx'.messages
      total_tokens := ctx'.total_tokens + summary.token_count }
  else ctx'

/-- `ConversationContext.add_message`: estimates and records tokens, appends
to the deque, and compresses when the running total exceeds the ceiling. -/
def add_message (ctx : ConversationContext) (role content : String) :
    ConversationContext :=
  let message : Message :=
    { role := role, content := content, token_count := estimate_tokens content }
  let ctx' := { ctx with
    messages := deque_append ctx.deque_maxlen ctx.messages message
    total_tokens := ctx.total_tokens + message.token_count }
  if ctx.max_tokens < ctx'.total_tokens then compress_context ctx' else ctx'

/-- A sequence of `add_message` calls. -/
def add_messages (ctx : ConversationContext) (calls : List (String × String)) :
    ConversationContext :=
  calls.foldl (fun c rc => add_message c rc.1 rc.2) ctx

/-- The compression scan never pushes the running count past the ceiling
(each branch that adds a message checks the bound first). -/
lemma compress_fold_le (target max_tokens : ℕ) (htm : target ≤ max_tokens) :
    ∀ (msgs : List Message) (st : List Message × ℕ), st.2 ≤ max_tokens →
      (msgs.foldl (compress_step target max_tokens) st).2 ≤ max_tokens := by
  intro msgs
  induction msgs with
  | nil => intro st h; exact h
  | cons m rest ih =>
    intro st h
    refine ih _ ?_
    unfold compress_step
    split
    · exact le_trans (by assumption) htm
    · split
      · exact (by assumption : _ ∧ _).2
      · exact h

/-- After compression the recorded total is at most the ceiling plus the
summary estimate (the summary is only added on the first compression). -/
lemma compress_context_total_le (ctx : ConversationContext)
    (h : system_prompt_tokens ctx ≤ ctx.max_tokens) :
    (compress_context ctx).total_tokens ≤
      ctx.max_tokens + estimate_tokens COMPRESSION_SUMMARY := by
  simp only [compress_context]
  have htarget : ctx.max_tokens * 7 / 10 ≤ ctx.max_tokens := by omega
  have hfold := compress_fold_le (ctx.max_tokens * 7 / 10) ctx.max_tokens htarget
    ctx.messages.reverse ([], system_prompt_tokens ctx) h
  split
  · dsimp only
    exact Nat.add_le_add_right hfold (estimate_tokens COMPRESSION_SUMMARY)
  · dsimp only
    exact le_trans hfold (Nat.le_add_right _ _)

/-- `_compress_context` leaves the ceiling unchanged. -/
lemma compress_context_max_tokens (ctx : ConversationContext) :
    (compress_context ctx).max_tokens = ctx.max_tokens := by
  simp only [compress_context]
  split <;> rfl

/-- `_compress_context` leaves the system prompt unchanged. -/
lemma compress_context_system_prompt (ctx : ConversationContext) :
    (compress_context ctx).system_prompt = ctx.system_prompt := by
  simp only [compress_context]
  split <;> rfl

/-- `_compress_context` increments the compression counter by one. -/
lemma compress_context_count (ctx : ConversationContext) :
    (compress_context ctx).compression_count = ctx.compression_count + 1 := by
  simp only [compress_context]
  split <;> rfl

/-- `add_message` leaves the ceiling unchanged. -/
lemma add_message_max_tokens (ctx : ConversationContext) (role content : String) :
    (add_message ctx role content).max_tokens = ctx.max_tokens := by
  simp only [add_message]
  split
  · exact compress_context_max_tokens _
  · rfl

/-- `add_message` leaves the system prompt unchanged. -/
lemma add_message_system_prompt (ctx : ConversationContext)
    (role content : String) :
    (add_message ctx role content).system_prompt = ctx.system_prompt := by
  simp only [add_message]
  split
  · exact compress_context_system_prompt _
  · rfl

/-- After any single `add_message` on a context whose system-prompt estimate
fits the ceiling, the total is at most the ceiling plus the summary
estimate. -/
lemma add_message_total_le (ctx : ConversationContext) (role content : String)
    (h : system_prompt_tokens ctx ≤ ctx.max_tokens) :
    (add_message ctx role content).total_tokens ≤
      ctx.max_tokens + estimate_tokens COMPRESSION_SUMMARY := by
  simp only [add_message]
  split
  · exact compress_context_total_le _ h
  · simp only [not_lt] at *
    exact le_trans (by assumption) (Nat.le_add_right _ _)

/-- C7 (amended): adding a message triggers compression exactly when the
running token total would exceed the ceiling; and along every `add_message`
sequence from a fresh context whose system-prompt estimate fits the ceiling,
the recorded total never exceeds the ceiling plus the 16-token synthetic
summary added by the first compression. The bound `max_tokens` itself can be
exceeded by exactly that summary margin (see the counterexample), so the
provable invariant is `max_tokens + 16`, not `max_tokens`. -/
theorem C7_compression_bound :
    estimate_tokens COMPRESSION_SUMMARY = 16 ∧
    (∀ (ctx : ConversationContext) (role content : String),
      (add_message ctx role content).compression_count =
        (if ctx.max_tokens < ctx.total_tokens + estimate_tokens content
         then ctx.compression_count + 1 else ctx.compression_count)) ∧
    (∀ (max_tokens max_messages : ℕ) (system_prompt : Option String)
      (calls : List (String × String)),
      (system_prompt.getD "").length / 4 ≤ max_tokens →
      (add_messages (mkConversationContext max_tokens max_messages system_prompt)
          calls).total_tokens ≤
        max_tokens + estimate_tokens COMPRESSION_SUMMARY) := by
  refine ⟨by decide, fun ctx role content => ?_, ?_⟩
  · simp only [add_message]
    split
    · rw [compress_context_count]
    · rfl
  · intro max_tokens max_messages system_prompt calls h
    suffices H : ∀ (calls : List (String × String)) (ctx : ConversationContext),
        ctx.max_tokens = max_tokens → ctx.system_prompt = system_prompt →
        ctx.total_tokens ≤ max_tokens + estimate_tokens COMPRESSION_SUMMARY →
        (add_messages ctx calls).total_tokens ≤
          max_tokens + estimate_tokens COMPRESSION_SUMMARY by
      exact H calls _ rfl rfl (by simp [mkConversationContext])
    intro calls
    induction calls with
    | nil => intro ctx _ _ ht; exact ht
    | cons rc rest ih =>
      intro ctx hmax hsys ht
      have hstep := add_message_total_le ctx rc.1 rc.2
        (by simpa [system_prompt_tokens, hsys, hmax] using h)
      refine ih (add_message ctx rc.1 rc.2) ?_ ?_ ?_
      · rw [add_message_max_tokens, hmax]
      · rw [add_message_system_prompt, hsys]
      · rw [hmax] at hstep; exact hstep

/-- Witness for `C7_compression_bound`: the bound clause applied to a fresh
8000-token context and a single small message. -/
theorem C7_compression_bound_witness :
    ((none : Option String).getD "").length / 4 ≤ 8000 ∧
    (add_messages (mkConversationContext 8000 20 none)
        [("user", "hello there")]).total_tokens ≤
      8000 + estimate_tokens COMPRESSION_SUMMARY :=
  ⟨by decide,
   C7_compression_bound.2.2 8000 20 none [("user", "hello there")] (by decide)⟩

/-- A content string of `n` copies of one character, used to build messages
of a chosen token estimate. -/
def aStr (n : ℕ) : String := String.mk (List.replicate n 'a')

/-- The length of `aStr n` is `n`. -/
lemma aStr_length (n : ℕ) : (aStr n).length = n := by
  simp [aStr, String.length]

/-- C7 counterexample: from a fresh context with `max_tokens = 8000`, adding
user messages of 1, 2400 and 5600 estimated tokens (4, 9600 and 22400
characters) triggers the first compression, which keeps the two most recent
messages (5600 tokens within the 70% target, then 2400 more within the full
ceiling) and then prepends the 16-token summary: the recorded
`current_tokens` is 8016, strictly above `max_tokens`, contradicting the
claimed `current_tokens <= max_tokens`. -/
theorem C7_counterexample :
    (add_messages (mkConversationContext 8000 20 none)
        [("user", aStr 4), ("user", aStr 9600), ("user", aStr 22400)]
      ).compression_count = 1 ∧
    (add_messages (mkConversationContext 8000 20 none)
        [("user", aStr 4), ("user", aStr 9600), ("user", aStr 22400)]
      ).total_tokens = 8016 := by
  have e1 : add_messages (mkConversationContext 8000 20 none)
      [("user", aStr 4), ("user", aStr 9600), ("user", aStr 22400)] =
      compress_context
        { max_tokens := 8000, max_messages := 20, system_prompt := none
          messages := [⟨"user", aStr 4, 1⟩, ⟨"user", aStr 9600, 2400⟩,
            ⟨"user", aStr 22400, 5600⟩]
          deque_maxlen := some 40, total_tokens := 8001,
          compression_count := 0 } := by
    simp [add_messages, add_message, mkConversationContext, deque_append,
      estimate_tokens, aStr_length]
  rw [e1]
  constructor
  · rw [compress_context_count]
  · simp [compress_context, compress_step, system_prompt_tokens, List.foldl_append,
      (by decide : estimate_tokens COMPRESSION_SUMMARY = 16)]

/-! ## Final-message extraction (`ResponseProcessor.extract_final_message`,
`family_v3_refactored.py`, C5) -/

/-- The whitespace class of Python's regex `\s` and `str.strip()` (ASCII
range: space, tab, newline, carriage return, vertical tab, form feed). -/
def isPySpace (c : Char) : Bool :=
  c == ' ' || c == '\t' || c == '\n' || c == '\r' || c == '\x0b' || c == '\x0c'

/-- The suffix strictly after the first occurrence of `pat`, scanning left
to right; `none` when `pat` does not occur. -/
def suffix_after_first (pat : List Char) : List Char → Option (List Char)
  | [] => if pat.isPrefixOf ([] : List Char) then some (([] : List Char).drop pat.length) else none
  | c :: rest =>
    if pat.isPrefixOf (c :: rest) then some ((c :: rest).drop pat.length)
    else suffix_after_first pat rest

/-- The prefix strictly before the first occurrence of `pat`; `none` when
`pat` does not occur. -/
def take_before_first (pat : List Char) : List Char → Option (List Char)
  | [] => if pat.isPrefixOf ([] : List Char) then some [] else none
  | c :: rest =>
    if pat.isPrefixOf (c :: rest) then some []
    else (take_before_first pat rest).map (c :: ·)

/-- Whether `pat` occurs as a contiguous run of `l`. -/
def contains_sub (pat l : List Char) : Bool :=
  (suffix_after_first pat l).isSome

/-- Python's `str.strip()`: drop leading and trailing whitespace. -/
def py_strip (l : List Char) : List Char :=
  ((l.dropWhile isPySpace).reverse.dropWhile isPySpace).reverse

/-- The literal opening marker of `FINAL_MESSAGE_PATTERN` (two opening
braces, `final_message` and a colon). -/
def FINAL_MESSAGE_MARKER : List Char := "\x7b\x7bfinal_message:".toList

/-- The literal closing marker (two closing braces). -/
def FINAL_CLOSE : List Char := "\x7d\x7d".toList

/-- `ResponseProcessor.extract_final_message`: the regex search for
`FINAL_MESSAGE_PATTERN` (DOTALL). The leftmost match starts at the first
occurrence of the opening marker; `\s*` greedily takes the whitespace run
after it (no closing brace is whitespace, so backtracking over that run can
never create a match that the maximal run misses); the non-greedy `(.*?)`
then ends the group at the first following occurrence of the closing marker;
the group is stripped. `none` when the marker is absent or no closing marker
follows it. -/
def extract_final_message (response_text : List Char) : Option (List Char) :=
  match suffix_after_first FINAL_MESSAGE_MARKER response_text with
  | none => none
  | some rest =>
    match take_before_first FINAL_CLOSE (rest.dropWhile isPySpace) with
    | none => none
    | some interior => some (py_strip interior)

/-- Modelled from the spec's words, for comparison with the code: the
interior "matched greedily across newlines", i.e. extending to the *last*
occurrence of the closing marker (a greedy `(.*)` in place of the source's
non-greedy `(.*?)`). -/
def extract_final_message_as_specified (response_text : List Char) :
    Option (List Char) :=
  match suffix_after_first FINAL_MESSAGE_MARKER response_text with
  | none => none
  | some rest =>
    match (suffix_after_first FINAL_CLOSE.reverse
        (rest.dropWhile isPySpace).reverse).map List.reverse with
    | none => none
    | some interior => some (py_strip interior)

/-- Occurrence is preserved by extending the text to the left. -/
lemma contains_sub_cons (pat : List Char) (c : Char) (l : List Char)
    (h : contains_sub pat l = true) : contains_sub pat (c :: l) = true := by
  unfold contains_sub suffix_after_first
  split
  · rfl
  · exact h

/-- Occurrence is preserved by prepending any prefix. -/
lemma contains_sub_append_left (pat a l : List Char)
    (h : contains_sub pat l = true) : contains_sub pat (a ++ l) = true := by
  induction a with
  | nil => exact h
  | cons c a' ih => exact contains_sub_cons pat c _ ih

/-- A text with a non-empty prefix `pat` contains `pat`. -/
lemma contains_sub_of_prefix (pat l : List Char) (hpat : pat ≠ [])
    (h : pat <+: l) : contains_sub pat l = true := by
  cases l with
  | nil =>
    exact absurd (List.prefix_nil.mp h) hpat
  | cons c rest =>
    unfold contains_sub suffix_after_first
    rw [if_pos (List.isPrefixOf_iff_prefix.mpr h)]
    rfl

/-- Occurrence transfers to any suffix-free weakening: if `pat` does not
occur in `l`, it does not occur in any suffix of `l`. -/
lemma contains_sub_eq_false_of_suffix (pat l r : List Char)
    (h : contains_sub pat l = false) (hr : r <:+ l) :
    contains_sub pat r = false := by
  obtain ⟨a, rfl⟩ := hr
  cases hc : contains_sub pat r with
  | false => rfl
  | true => exact absurd (contains_sub_append_left pat a r hc) (by simp [h])

/-- When `pat` is a non-empty prefix of `l`, the scan stops at position
zero. -/
lemma suffix_after_first_prefix (pat l : List Char) (hpat : pat ≠ [])
    (h : pat <+: l) : suffix_after_first pat l = some (l.drop pat.length) := by
  cases l with
  | nil => exact absurd (List.prefix_nil.mp h) hpat
  | cons c rest =>
    conv_lhs => unfold suffix_after_first
    rw [if_pos (List.isPrefixOf_iff_prefix.mpr h)]

/-- When `pat` does not start at position zero, the scan moves right. -/
lemma suffix_after_first_cons_neg (pat : List Char) (c : Char) (L : List Char)
    (h : pat.isPrefixOf (c :: L) = false) :
    suffix_after_first pat (c :: L) = suffix_after_first pat L := by
  conv_lhs => unfold suffix_after_first
  rw [h]
  simp

/-- Before-part analogue of `suffix_after_first_prefix`. -/
lemma take_before_first_prefix (pat l : List Char) (hpat : pat ≠ [])
    (h : pat <+: l) : take_before_first pat l = some [] := by
  cases l with
  | nil => exact absurd (List.prefix_nil.mp h) hpat
  | cons c rest =>
    conv_lhs => unfold take_before_first
    rw [if_pos (List.isPrefixOf_iff_prefix.mpr h)]

/-- Before-part analogue of `suffix_after_first_cons_neg`. -/
lemma take_before_first_cons_neg (pat : List Char) (c : Char) (L : List Char)
    (h : pat.isPrefixOf (c :: L) = false) :
    take_before_first pat (c :: L) = (take_before_first pat L).map (c :: ·) := by
  conv_lhs => unfold take_before_first
  rw [h]
  simp

/-- An occurrence of `pat` starting within the region `pre` of the text
`pre ++ pat ++ rest` (including runs straddling into the appended `pat`)
lies inside `pre ++ pat.dropLast`. -/
lemma pat_not_prefix_of_no_early_occurrence (pat : List Char) (hpat : pat ≠ [])
    (c : Char) (pre' rest : List Char)
    (h : contains_sub pat ((c :: pre') ++ pat.dropLast) = false) :
    pat.isPrefixOf ((c :: pre') ++ pat ++ rest) = false := by
  cases hb : pat.isPrefixOf ((c :: pre') ++ pat ++ rest) with
  | false => rfl
  | true =>
    exfalso
    have hpref : pat <+: ((c :: pre') ++ pat ++ rest) :=
      List.isPrefixOf_iff_prefix.mp hb
    have hsplit : (c :: pre') ++ pat ++ rest =
        ((c :: pre') ++ pat.dropLast) ++ (pat.getLast hpat :: rest) := by
      conv_lhs => rw [← List.dropLast_append_getLast hpat]
      simp
    have hA : ((c :: pre') ++ pat.dropLast) <+: ((c :: pre') ++ pat ++ rest) := by
      rw [hsplit]
      exact List.prefix_append _ _
    have hlen : pat.length ≤ ((c :: pre') ++ pat.dropLast).length := by
      have h1 : 0 < pat.length := List.length_pos.mpr hpat
      simp only [List.length_append, List.length_cons, List.length_dropLast]
      omega
    have hsub : pat <+: ((c :: pre') ++ pat.dropLast) :=
      List.prefix_of_prefix_length_le hpref hA hlen
    have hcontains := contains_sub_of_prefix pat _ hpat hsub
    rw [hcontains] at h
    simp at h

/-- Weakening of the no-early-occurrence hypothesis to the tail. -/
lemma no_early_occurrence_tail (pat : List Char) (c : Char) (pre' : List Char)
    (h : contains_sub pat ((c :: pre') ++ pat.dropLast) = false) :
    contains_sub pat (pre' ++ pat.dropLast) = false := by
  cases hc : contains_sub pat (pre' ++ pat.dropLast) with
  | false => rfl
  | true =>
    exfalso
    have hstep := contains_sub_cons pat c _ hc
    rw [show c :: (pre' ++ pat.dropLast) = (c :: pre') ++ pat.dropLast from rfl] at hstep
    rw [hstep] at h
    simp at h

/-- Scanning for `pat` past a region with no occurrence finds the copy of
`pat` placed right after it: the first-occurrence suffix is exactly `rest`. -/
lemma suffix_after_first_append (pat : List Char) (hpat : pat ≠ []) :
    ∀ pre rest, contains_sub pat (pre ++ pat.dropLast) = false →
      suffix_after_first pat (pre ++ pat ++ rest) = some rest := by
  intro pre
  induction pre with
  | nil =>
    intro rest _
    rw [List.nil_append,
      suffix_after_first_prefix pat (pat ++ rest) hpat (List.prefix_append _ _),
      List.drop_left]
  | cons c pre' ih =>
    intro rest h
    have hnotpref := pat_not_prefix_of_no_early_occurrence pat hpat c pre' rest h
    have hcons : ((c :: pre') ++ pat) ++ rest = c :: ((pre' ++ pat) ++ rest) := by
      simp
    rw [hcons] at hnotpref
    calc suffix_after_first pat ((c :: pre') ++ pat ++ rest)
        = suffix_after_first pat (c :: ((pre' ++ pat) ++ rest)) := by rw [hcons]
      _ = suffix_after_first pat ((pre' ++ pat) ++ rest) :=
          suffix_after_first_cons_neg _ _ _ hnotpref
      _ = some rest := ih rest (no_early_occurrence_tail pat c pre' h)

/-- Companion to `suffix_after_first_append` for the before-part. -/
lemma take_before_first_append (pat : List Char) (hpat : pat ≠ []) :
    ∀ pre rest, contains_sub pat (pre ++ pat.dropLast) = false →
      take_before_first pat (pre ++ pat ++ rest) = some pre := by
  intro pre
  induction pre with
  | nil =>
    intro rest _
    rw [List.nil_append,
      take_before_first_prefix pat (pat ++ rest) hpat (List.prefix_append _ _)]
  | cons c pre' ih =>
    intro rest h
    have hnotpref := pat_not_prefix_of_no_early_occurrence pat hpat c pre' rest h
    have hcons : ((c :: pre') ++ pat) ++ rest = c :: ((pre' ++ pat) ++ rest) := by
      simp
    rw [hcons] at hnotpref
    calc take_before_first pat ((c :: pre') ++ pat ++ rest)
        = take_before_first pat (c :: ((pre' ++ pat) ++ rest)) := by rw [hcons]
      _ = (take_before_first pat ((pre' ++ pat) ++ rest)).map (c :: ·) :=
          take_before_first_cons_neg _ _ _ hnotpref
      _ = some (c :: pre') := by
          rw [ih rest (no_early_occurrence_tail pat c pre' h)]
          rfl

/-- The first-occurrence suffix is a suffix of the scanned text. -/
lemma suffix_after_first_isSuffix (pat : List Char) :
    ∀ l r, suffix_after_first pat l = some r → r <:+ l := by
  intro l
  induction l with
  | nil =>
    intro r h
    unfold suffix_after_first at h
    split at h
    · simp at h
      exact h ▸ List.nil_suffix
    · exact absurd h (by simp)
  | cons c rest ih =>
    intro r h
    unfold suffix_after_first at h
    split at h
    · have : r = (c :: rest).drop pat.length := by
        simpa using h.symm
      exact this ▸ List.drop_suffix _ _
    · exact (ih r h).trans (List.suffix_cons c rest)

/-- `take_before_first` succeeds exactly when `suffix_after_first` does. -/
lemma take_before_first_eq_none_iff (pat : List Char) :
    ∀ l, take_before_first pat l = none ↔ suffix_after_first pat l = none := by
  intro l
  induction l with
  | nil =>
    unfold take_before_first suffix_after_first
    split <;> simp
  | cons c rest ih =>
    unfold take_before_first suffix_after_first
    split <;> simp [ih]

/-- `dropWhile` stops no later than a character that fails the predicate:
it distributes over an append whose right part starts with such a
character. -/
lemma dropWhile_append_not_head (p : Char → Bool) (c : Char) (b : List Char)
    (hc : p c = false) :
    ∀ a : List Char, (a ++ c :: b).dropWhile p = a.dropWhile p ++ c :: b := by
  intro a
  induction a with
  | nil => simp [List.dropWhile, hc]
  | cons x a' ih =>
    show List.dropWhile p (x :: (a' ++ c :: b)) = _
    rw [List.dropWhile_cons, List.dropWhile_cons]
    cases hx : p x with
    | true => simpa [hx] using ih
    | false => simp [hx]

/-- Stripping is unaffected by first dropping the leading whitespace. -/
lemma py_strip_dropWhile (l : List Char) :
    py_strip (l.dropWhile isPySpace) = py_strip l := by
  unfold py_strip
  rw [List.dropWhile_idempotent]

/-- C5 counterexample: on a response whose interior is followed by a second
closing marker, the source's non-greedy group stops at the first closing
marker and extracts `"a"`, while the spec's greedy reading would extend to
the last closing marker and extract `"a"` followed by the first closing
marker and `"b"` — the two disagree, so the interior is not "matched
greedily". -/
theorem C5_lazy_not_greedy :
    extract_final_message "\x7b\x7bfinal_message: a\x7d\x7db\x7d\x7d".toList =
      some "a".toList ∧
    extract_final_message_as_specified
        "\x7b\x7bfinal_message: a\x7d\x7db\x7d\x7d".toList =
      some "a\x7d\x7db".toList ∧
    extract_final_message "\x7b\x7bfinal_message: a\x7d\x7db\x7d\x7d".toList ≠
      extract_final_message_as_specified
        "\x7b\x7bfinal_message: a\x7d\x7db\x7d\x7d".toList := by
  refine ⟨by decide, by decide, by decide⟩

/-- C5 (amended): the extractor returns the sentinel span's interior matched
*lazily* (up to the first closing marker) across newlines and trimmed: the
example response extracts exactly `"Your plan is ready!"`; an opening marker
with no closing braces extracts nothing; and in general, for any response
text of shape `pre ++ marker ++ mid ++ close ++ post` where no marker
occurrence starts in `pre` and no closing run occurs in `mid` (nor straddles
into the close), the extracted message is `mid` trimmed; while a text whose
tail after `pre ++ marker` contains no closing run extracts nothing. -/
theorem C5_final_message_extraction :
    extract_final_message
        "Thinking...\n\x7b\x7bfinal_message: Your plan is ready!\x7d\x7d".toList =
      some "Your plan is ready!".toList ∧
    extract_final_message "\x7b\x7bfinal_message: unterminated".toList = none ∧
    (∀ pre mid post : List Char,
      contains_sub FINAL_MESSAGE_MARKER
        (pre ++ FINAL_MESSAGE_MARKER.dropLast) = false →
      contains_sub FINAL_CLOSE (mid ++ FINAL_CLOSE.dropLast) = false →
      extract_final_message
          (pre ++ FINAL_MESSAGE_MARKER ++ (mid ++ FINAL_CLOSE ++ post)) =
        some (py_strip mid)) ∧
    (∀ pre mid : List Char,
      contains_sub FINAL_CLOSE (pre ++ FINAL_MESSAGE_MARKER ++ mid) = false →
      extract_final_message (pre ++ FINAL_MESSAGE_MARKER ++ mid) = none) := by
  refine ⟨by decide, by decide, ?_, ?_⟩
  · intro pre mid post hpre hmid
    unfold extract_final_message
    rw [suffix_after_first_append FINAL_MESSAGE_MARKER (by decide) pre
      (mid ++ FINAL_CLOSE ++ post) hpre]
    dsimp only
    rw [show mid ++ FINAL_CLOSE ++ post = mid ++ '\x7d' :: ('\x7d' :: post) by
      simp [FINAL_CLOSE]]
    rw [dropWhile_append_not_head isPySpace '\x7d' ('\x7d' :: post)
      (by decide) mid]
    have hmid' : contains_sub FINAL_CLOSE
        ((mid.dropWhile isPySpace) ++ FINAL_CLOSE.dropLast) = false := by
      refine contains_sub_eq_false_of_suffix FINAL_CLOSE
        (mid ++ FINAL_CLOSE.dropLast) _ hmid ?_
      obtain ⟨a, ha⟩ := List.dropWhile_suffix (l := mid) isPySpace
      exact ⟨a, by rw [← List.append_assoc, ha]⟩
    rw [show (mid.dropWhile isPySpace) ++ '\x7d' :: ('\x7d' :: post) =
        (mid.dropWhile isPySpace) ++ FINAL_CLOSE ++ post by simp [FINAL_CLOSE]]
    rw [take_before_first_append FINAL_CLOSE (by decide)
      (mid.dropWhile isPySpace) post hmid']
    dsimp only
    rw [py_strip_dropWhile]
  · intro pre mid hno
    unfold extract_final_message
    cases hs : suffix_after_first FINAL_MESSAGE_MARKER
        (pre ++ FINAL_MESSAGE_MARKER ++ mid) with
    | none => rfl
    | some rest =>
      have hrest : rest <:+ (pre ++ FINAL_MESSAGE_MARKER ++ mid) :=
        suffix_after_first_isSuffix _ _ _ hs
      have hnorest : contains_sub FINAL_CLOSE (rest.dropWhile isPySpace) = false :=
        contains_sub_eq_false_of_suffix _ _ _
          (contains_sub_eq_false_of_suffix _ _ _ hno hrest)
          (List.dropWhile_suffix _)
      dsimp only
      rw [(take_before_first_eq_none_iff FINAL_CLOSE _).mpr (by
        cases ht : suffix_after_first FINAL_CLOSE (rest.dropWhile isPySpace) with
        | none => rfl
        | some r2 =>
          exfalso
          have hct : contains_sub FINAL_CLOSE (rest.dropWhile isPySpace) = true := by
            unfold contains_sub
            rw [ht]
            rfl
          rw [hct] at hnorest
          simp at hnorest)]

/-- Witness for `C5_final_message_extraction` at concrete inputs: the two
general clauses applied to the example response (prefix `"Thinking...\n"`,
interior `" Your plan is ready!"`) and to the unterminated response. -/
theorem C5_final_message_extraction_witness :
    contains_sub FINAL_MESSAGE_MARKER
      ("Thinking...\n".toList ++ FINAL_MESSAGE_MARKER.dropLast) = false ∧
    contains_sub FINAL_CLOSE
      (" Your plan is ready!".toList ++ FINAL_CLOSE.dropLast) = false ∧
    extract_final_message ("Thinking...\n".toList ++ FINAL_MESSAGE_MARKER ++
        (" Your plan is ready!".toList ++ FINAL_CLOSE ++ [])) =
      some (py_strip " Your plan is ready!".toList) ∧
    contains_sub FINAL_CLOSE
      ([] ++ FINAL_MESSAGE_MARKER ++ " unterminated".toList) = false ∧
    extract_final_message ([] ++ FINAL_MESSAGE_MARKER ++ " unterminated".toList) =
      none := by
  refine ⟨by decide, by decide, ?_, by decide, ?_⟩
  · exact C5_final_message_extraction.2.2.1 "Thinking...\n".toList
      " Your plan is ready!".toList [] (by decide) (by decide)
  · exact C5_final_message_extraction.2.2.2 [] " unterminated".toList (by decide)

/-! ## Anthropic JSON extraction (`app/services/llm/anthropic_service.py`, C6) -/

/-- JSON inter-token whitespace. -/
def isJsonWs (c : Char) : Bool :=
  c == ' ' || c == '\t' || c == '\n' || c == '\r'

/-- Parses a JSON string literal without escape sequences — sufficient for
the flat error-sentinel objects these operations test for; returns the
contents and the remainder. -/
def parse_json_string : List Char → Option (String × List Char)
  | '\"' :: rest =>
    match rest.dropWhile (· ≠ '\"') with
    | '\"' :: r => some (String.mk (rest.takeWhile (· ≠ '\"')), r)
    | _ => none
  | _ => none

/-- Parses the members of a flat string-valued JSON object after its opening
brace, with fuel bounding the recursion. -/
def parse_json_members :
    ℕ → List Char → Option (List (String × String) × List Char)
  | 0, _ => none
  | fuel + 1, l =>
    match parse_json_string (l.dropWhile isJsonWs) with
    | none => none
    | some (k, r1) =>
      match r1.dropWhile isJsonWs with
      | ':' :: r2 =>
        match parse_json_string (r2.dropWhile isJsonWs) with
        | none => none
        | some (v, r3) =>
          match r3.dropWhile isJsonWs with
          | ',' :: r4 =>
            (parse_json_members fuel r4).map (fun p => ((k, v) :: p.1, p.2))
          | '\x7d' :: r4 => some ([(k, v)], r4)
          | _ => none
      | _ => none

/-- Models `json.loads` restricted to flat objects with string keys and
string values — the shape of the error-sentinel objects (`{"error": ...}`)
these operations check for. Text outside this fragment parses to `none`,
the parse-failure branch that `json.loads` also takes on malformed text. -/
def json_loads (l : List Char) : Option (List (String × String)) :=
  match l.dropWhile isJsonWs with
  | '\x7b' :: r =>
    match r.dropWhile isJsonWs with
    | '\x7d' :: r2 => if (r2.dropWhile isJsonWs).isEmpty then some [] else none
    | _ =>
      match parse_json_members (l.length + 1) r with
      | some (members, rest) =>
        if (rest.dropWhile isJsonWs).isEmpty then some members else none
      | none => none
  | _ => none

/-- Python `str.find(ch)`: index of the first occurrence (`none` for -1). -/
def str_find (text : List Char) (c : Char) : Option ℕ :=
  text.findIdx? (· == c)

/-- Python `str.rfind(ch)`: index of the last occurrence (`none` for -1). -/
def str_rfind (text : List Char) (c : Char) : Option ℕ :=
  (text.reverse.findIdx? (· == c)).map (fun i => text.length - 1 - i)

/-- Outcome of one extraction operation: the parsed object, or the message
of the exception that the operation's `except` clause re-wraps. -/
inductive JsonExtract
  | ok (result : List (String × String))
  | error (msg : String)
deriving DecidableEq

/-- The brace-slicing logic shared verbatim by the three operations: find
the first opening brace and the last closing brace, parse the slice between
them; raise `ValueError("No valid JSON found in response")` when either
brace is missing, and a decode error (modelled by its leading words) when
the slice does not parse. -/
def find_json (response_text : List Char) : JsonExtract :=
  match str_find response_text '\x7b', str_rfind response_text '\x7d' with
  | some s, some e1 =>
    match json_loads ((response_text.drop s).take (e1 + 1 - s)) with
    | some result => .ok result
    | none => .error "Expecting value"
  | _, _ => .error "No valid JSON found in response"

/-- `AnthropicService.extract_recipe`, from the response text onward: slice
and parse, raise the parsed object's `error` value when that key is
present, and wrap any exception as a recipe-extraction failure. -/
def extract_recipe_result (response_text : List Char) : JsonExtract :=
  match find_json response_text with
  | .error msg => .error ("Failed to extract recipe: " ++ msg)
  | .ok result =>
    match result.lookup "error" with
    | some v => .error ("Failed to extract recipe: " ++ v)
    | none => .ok result

/-- `AnthropicService.extract_table_of_contents`, from the response text
onward: identical to recipe extraction up to the wrapping message. -/
def extract_table_of_contents_result (response_text : List Char) : JsonExtract :=
  match find_json response_text with
  | .error msg => .error ("Failed to extract table of contents: " ++ msg)
  | .ok result =>
    match result.lookup "error" with
    | some v => .error ("Failed to extract table of contents: " ++ v)
    | none => .ok result

/-- `AnthropicService.calculate_nutrition`, from the response text onward:
slice and parse, wrap failures — but with no check of the parsed object for
an `error` key. -/
def calculate_nutrition_result (response_text : List Char) : JsonExtract :=
  match find_json response_text with
  | .error msg => .error ("Failed to calculate nutrition: " ++ msg)
  | .ok result => .ok result

/-- Whether the operation failed. -/
def JsonExtract.isError : JsonExtract → Bool
  | .error _ => true
  | .ok _ => false

/-- C6 counterexample: on the response `{"error": "boom"}` the nutrition
operation returns the parsed object as a success — it has no `error`-key
check — while recipe extraction fails on the same response, contradicting
the claim that all three operations fail when the parsed object contains an
`error` key. -/
theorem C6_nutrition_ignores_error_key :
    calculate_nutrition_result "\x7b\"error\": \"boom\"\x7d".toList =
      .ok [("error", "boom")] ∧
    (calculate_nutrition_result "\x7b\"error\": \"boom\"\x7d".toList).isError
      = false ∧
    extract_recipe_result "\x7b\"error\": \"boom\"\x7d".toList =
      .error "Failed to extract recipe: boom" := by
  refine ⟨by decide, by decide, by decide⟩

/-- C6 (amended): each operation slices between the first opening brace and
the last closing brace; when either brace is missing all three fail with an
extraction error wrapping "No valid JSON found in response"; when the parsed
object holds an `error` key, recipe and table-of-contents extraction fail
with an error wrapping that value — but nutrition calculation performs no
such check and returns the parsed object. -/
theorem C6_json_extraction :
    (∀ text : List Char,
      str_find text '\x7b' = none ∨ str_rfind text '\x7d' = none →
      extract_recipe_result text =
        .error "Failed to extract recipe: No valid JSON found in response" ∧
      extract_table_of_contents_result text =
        .error
          "Failed to extract table of contents: No valid JSON found in response" ∧
      calculate_nutrition_result text =
        .error "Failed to calculate nutrition: No valid JSON found in response") ∧
    (∀ (text : List Char) (r : List (String × String)) (v : String),
      find_json text = .ok r → r.lookup "error" = some v →
      extract_recipe_result text = .error ("Failed to extract recipe: " ++ v) ∧
      extract_table_of_contents_result text =
        .error ("Failed to extract table of contents: " ++ v)) ∧
    (∀ (text : List Char) (r : List (String × String)),
      find_json text = .ok r → calculate_nutrition_result text = .ok r) := by
  refine ⟨fun text h => ?_, fun text r v hfind herr => ?_, fun text r hfind => ?_⟩
  · have hfj : find_json text = .error "No valid JSON found in response" := by
      unfold find_json
      rcases h with h | h
      · rw [h]
      · cases hf : str_find text '\x7b' <;> rw [h]
    refine ⟨?_, ?_, ?_⟩ <;>
      simp [extract_recipe_result, extract_table_of_contents_result,
        calculate_nutrition_result, hfj]
  · constructor <;>
      simp [extract_recipe_result, extract_table_of_contents_result, hfind, herr]
  · simp [calculate_nutrition_result, hfind]

/-- Witness for `C6_json_extraction`: a brace-free response fails all three
operations, and the error-sentinel response drives the error-key clauses. -/
theorem C6_json_extraction_witness :
    (str_find "no json here".toList '\x7b' = none ∨
      str_rfind "no json here".toList '\x7d' = none) ∧
    extract_recipe_result "no json here".toList =
      .error "Failed to extract recipe: No valid JSON found in response" ∧
    find_json "\x7b\"error\": \"boom\"\x7d".toList = .ok [("error", "boom")] ∧
    extract_table_of_contents_result "\x7b\"error\": \"boom\"\x7d".toList =
      .error "Failed to extract table of contents: boom" ∧
    calculate_nutrition_result "\x7b\"error\": \"boom\"\x7d".toList =
      .ok [("error", "boom")] := by
  refine ⟨Or.inl (by decide), ?_, by decide, ?_, ?_⟩
  · exact (C6_json_extraction.1 "no json here".toList (Or.inl (by decide))).1
  · exact (C6_json_extraction.2.1 "\x7b\"error\": \"boom\"\x7d".toList
      [("error", "boom")] "boom" (by decide) (by decide)).2
  · exact C6_json_extraction.2.2 "\x7b\"error\": \"boom\"\x7d".toList
      [("error", "boom")] (by decide)

/-! ## PDF cropping (`app/services/pdf/processor.py`, C9) -/

/-- `PDFProcessor.crop_pdf` on a document given as its page list: converts
the 1-indexed `start_page` to a 0-indexed start clamped at 0, clamps
`end_page` to the page count, and copies `reader.pages[page_num]` for each
`page_num` in the resulting range, guarded by the in-loop bound check.
Total for every integer pair — out-of-range numbers only shrink the copied
range, and no page access can go out of bounds. -/
def crop_pdf (pages : List ℕ) (start_page end_page : ℤ) : List ℕ :=
  let total : ℤ := pages.length
  let s := max 0 (start_page - 1)
  let e := min total end_page
  (List.range (e - s).toNat).filterMap
    (fun i : ℕ =>
      if s + (i : ℤ) < total then pages.get? (s + (i : ℤ)).toNat else none)

/-- Modelled from the spec's words, for comparison: the 1-indexed pages from
`max 1 start` through `min end N` in original order. -/
def crop_pdf_as_specified (pages : List ℕ) (start_page end_page : ℤ) : List ℕ :=
  let first := max 1 start_page
  let last := min end_page (pages.length : ℤ)
  (pages.drop (first - 1).toNat).take (last - first + 1).toNat

/-- Reading consecutive positions with `get?` yields a contiguous slice. -/
lemma filterMap_range_get? {α : Type} (l : List α) (s : ℕ) :
    ∀ n : ℕ,
      (List.range n).filterMap (fun i => l.get? (s + i)) = (l.drop s).take n := by
  intro n
  induction n with
  | zero => simp
  | succ n ih =>
    rw [List.range_succ, List.filterMap_append, ih, List.take_succ]
    congr 1
    rw [List.getElem?_drop]
    cases h : l[s + n]? <;> simp [List.filterMap, h, List.get?_eq_getElem?]

/-- C9: cropping is total and clamped — it returns exactly the 1-indexed
pages `max 1 start .. min end N` in original order, the empty document when
that range is empty, and cropping through `end + 1` (the book-ingestion
call) returns everything from `max 1 start` even when `end` is the last
page. -/
theorem C9_crop_pdf_clamped :
    (∀ (pages : List ℕ) (start_page end_page : ℤ),
      crop_pdf pages start_page end_page =
        crop_pdf_as_specified pages start_page end_page) ∧
    (∀ (pages : List ℕ) (start_page end_page : ℤ),
      min end_page (pages.length : ℤ) < max 1 start_page →
      crop_pdf pages start_page end_page = []) ∧
    (∀ (pages : List ℕ) (start_page : ℤ),
      crop_pdf pages start_page ((pages.length : ℤ) + 1) =
        pages.drop (max 1 start_page - 1).toNat) := by
  have hmain : ∀ (pages : List ℕ) (start_page end_page : ℤ),
      crop_pdf pages start_page end_page =
        crop_pdf_as_specified pages start_page end_page := by
    intro pages start_page end_page
    simp only [crop_pdf, crop_pdf_as_specified]
    have hs : (0 : ℤ) ≤ max 0 (start_page - 1) := le_max_left 0 _
    have hfun : (fun i : ℕ =>
        if (max 0 (start_page - 1)) + (i : ℤ) < (pages.length : ℤ)
        then pages.get? ((max 0 (start_page - 1)) + (i : ℤ)).toNat else none) =
        fun i : ℕ => pages.get? ((max 0 (start_page - 1)).toNat + i) := by
      funext i
      by_cases h : (max 0 (start_page - 1)) + (i : ℤ) < (pages.length : ℤ)
      · rw [if_pos h]
        congr 1
        omega
      · rw [if_neg h]
        symm
        exact List.get?_eq_none.mpr (by omega)
    rw [hfun, filterMap_range_get?]
    rw [show (max 0 (start_page - 1)).toNat = (max 1 start_page - 1).toNat by omega]
    rw [show (min (pages.length : ℤ) end_page - max 0 (start_page - 1)).toNat =
      (min end_page (pages.length : ℤ) - max 1 start_page + 1).toNat by omega]
  refine ⟨hmain, fun pages start_page end_page hlt => ?_, fun pages start_page => ?_⟩
  · rw [hmain]
    simp only [crop_pdf_as_specified]
    rw [show (min end_page (pages.length : ℤ) - max 1 start_page + 1).toNat = 0
      by omega]
    simp
  · rw [hmain]
    simp only [crop_pdf_as_specified]
    by_cases h : max 1 start_page ≤ (pages.length : ℤ) + 1
    · apply List.take_of_length_le
      rw [List.length_drop]
      omega
    · rw [List.drop_eq_nil_of_le (by omega), show
        (min ((pages.length : ℤ) + 1) (pages.length : ℤ) - max 1 start_page
          + 1).toNat = 0 by omega]
      simp

/-- Witness for `C9_crop_pdf_clamped` at a concrete three-page document:
a clamped in-range crop, an empty-range crop, and the ingestion pattern
cropping through one past the last page. -/
theorem C9_crop_pdf_clamped_witness :
    crop_pdf [10, 20, 30] 2 99 = crop_pdf_as_specified [10, 20, 30] 2 99 ∧
    min (5 : ℤ) (([10, 20, 30] : List ℕ).length : ℤ) < max 1 7 ∧
    crop_pdf [10, 20, 30] 7 5 = [] ∧
    crop_pdf [10, 20, 30] 2 ((([10, 20, 30] : List ℕ).length : ℤ) + 1) =
      ([10, 20, 30] : List ℕ).drop (max (1 : ℤ) 2 - 1).toNat := by
  refine ⟨C9_crop_pdf_clamped.1 [10, 20, 30] 2 99, by decide,
    C9_crop_pdf_clamped.2.1 [10, 20, 30] 7 5 (by decide),
    C9_crop_pdf_clamped.2.2 [10, 20, 30] 2⟩

/-! ## Base repository update (`app/services/repositories/base.py`, C10) -/

/-- A persisted entity as the repository layer sees it: a primary key and
the model's attributes as a field map — `hasattr`/`setattr` act on this
map. `V` is the attribute value type. -/
structure Entity (V : Type) where
  id : ℕ
  attrs : List (String × V)

/-- Python `hasattr(entity, key)` for model columns. -/
def hasattr {V : Type} (e : Entity V) (k : String) : Bool :=
  (e.attrs.lookup k).isSome

/-- Overwrite the value stored under a key, adding nothing when the key is
absent. -/
def replace_attr {V : Type} (k : String) (v : V) :
    List (String × V) → List (String × V)
  | [] => []
  | (pk, pv) :: rest =>
    if pk = k then (pk, v) :: replace_attr k v rest
    else (pk, pv) :: replace_attr k v rest

/-- Python `setattr(entity, key, value)`: overwrite the named attribute,
adding nothing when the attribute does not exist on the model. -/
def setattr {V : Type} (e : Entity V) (k : String) (v : V) : Entity V :=
  { e with attrs := replace_attr k v e.attrs }

/-- The update loop of `BaseRepository.update`: apply each supplied key that
is an attribute of the model, in iteration order, silently skipping the
rest. -/
def apply_updates {V : Type} (updates : List (String × V)) (e : Entity V) :
    Entity V :=
  updates.foldl
    (fun acc kv => if hasattr acc kv.1 then setattr acc kv.1 kv.2 else acc) e

/-- `BaseRepository.update`: fetch by id (no value and an unchanged store
when absent); apply the updates; stamp `updated_at` with the current time
whenever the model has that attribute, even when no supplied key applied;
commit and return the refreshed entity. `now` stands for
`datetime.utcnow()`. -/
def repository_update {V : Type} (now : V) (store : List (Entity V))
    (entity_id : ℕ) (updates : List (String × V)) :
    Option (Entity V) × List (Entity V) :=
  match store.find? (fun e => e.id == entity_id) with
  | none => (none, store)
  | some entity =>
    let e1 := apply_updates updates entity
    let e2 := if hasattr e1 "updated_at" then setattr e1 "updated_at" now else e1
    (some e2, updateFirst (fun e => e.id == entity_id) (fun _ => e2) store)

/-- Overwriting a value does not change the stored keys. -/
lemma replace_attr_keys {V : Type} (k : String) (v : V) :
    ∀ l : List (String × V),
      (replace_attr k v l).map Prod.fst = l.map Prod.fst := by
  intro l
  induction l with
  | nil => rfl
  | cons p rest ih =>
    obtain ⟨pk, pv⟩ := p
    by_cases hp : pk = k <;> simp [replace_attr, hp, ih]

/-- Overwriting one key leaves lookups of any other key unchanged. -/
lemma lookup_replace_attr_ne {V : Type} (k a : String) (v : V) (h : a ≠ k) :
    ∀ l : List (String × V),
      (replace_attr k v l).lookup a = l.lookup a := by
  intro l
  induction l with
  | nil => rfl
  | cons p rest ih =>
    obtain ⟨pk, pv⟩ := p
    by_cases hp : pk = k
    · subst hp
      have hne : (a == pk) = false := beq_eq_false_iff_ne.mpr h
      simp [replace_attr, List.lookup, hne, ih]
    · cases ha : a == pk <;> simp [replace_attr, List.lookup, hp, ha, ih]

/-- Looking up the overwritten key yields the new value exactly when the key
was present. -/
lemma lookup_replace_attr_self {V : Type} (k : String) (v : V) :
    ∀ l : List (String × V),
      (replace_attr k v l).lookup k = (l.lookup k).map (fun _ => v) := by
  intro l
  induction l with
  | nil => rfl
  | cons p rest ih =>
    obtain ⟨pk, pv⟩ := p
    by_cases hp : pk = k
    · subst hp
      simp [replace_attr, List.lookup, ih]
    · have hne : (k == pk) = false := beq_eq_false_iff_ne.mpr (fun hk => hp hk.symm)
      simp [replace_attr, List.lookup, hp, hne, ih]

/-- `setattr` does not change the model's attribute names. -/
lemma setattr_keys {V : Type} (e : Entity V) (k : String) (v : V) :
    (setattr e k v).attrs.map Prod.fst = e.attrs.map Prod.fst :=
  replace_attr_keys k v e.attrs

/-- `setattr` on one key leaves every other key's value unchanged. -/
lemma setattr_lookup_ne {V : Type} (e : Entity V) (k a : String) (v : V)
    (h : a ≠ k) : (setattr e k v).attrs.lookup a = e.attrs.lookup a :=
  lookup_replace_attr_ne k a v h e.attrs

/-- `setattr` on a present key makes its value the written one. -/
lemma setattr_lookup_self {V : Type} (e : Entity V) (k : String) (v : V)
    (h : hasattr e k = true) : (setattr e k v).attrs.lookup k = some v := by
  unfold hasattr at h
  rw [show (setattr e k v).attrs = replace_attr k v e.attrs from rfl,
    lookup_replace_attr_self]
  cases hl : e.attrs.lookup k with
  | none => rw [hl] at h; simp at h
  | some w => rfl

/-- `setattr` does not change which attributes the model has. -/
lemma hasattr_setattr {V : Type} (e : Entity V) (k a : String) (v : V) :
    hasattr (setattr e k v) a = hasattr e a := by
  unfold hasattr
  by_cases h : a = k
  · subst h
    rw [show (setattr e a v).attrs = replace_attr a v e.attrs from rfl,
      lookup_replace_attr_self]
    cases e.attrs.lookup a <;> rfl
  · rw [setattr_lookup_ne e k a v h]

/-- The update loop does not change which attributes the model has. -/
lemma hasattr_apply_updates {V : Type} (updates : List (String × V)) (a : String) :
    ∀ e : Entity V, hasattr (apply_updates updates e) a = hasattr e a := by
  induction updates with
  | nil => intro e; rfl
  | cons kv rest ih =>
    intro e
    show hasattr (apply_updates rest _) a = _
    rw [ih]
    by_cases h : hasattr e kv.1
    · simp [h, hasattr_setattr]
    · simp [h]

/-- The update loop does not change the model's attribute names. -/
lemma apply_updates_keys {V : Type} (updates : List (String × V)) :
    ∀ e : Entity V,
      (apply_updates updates e).attrs.map Prod.fst = e.attrs.map Prod.fst := by
  induction updates with
  | nil => intro e; rfl
  | cons kv rest ih =>
    intro e
    show (apply_updates rest _).attrs.map Prod.fst = _
    rw [ih]
    by_cases h : hasattr e kv.1
    · simp [h, setattr_keys]
    · simp [h]

/-- The update loop leaves every key not named in the map unchanged. -/
lemma apply_updates_lookup_not_mem {V : Type} (updates : List (String × V))
    (a : String) (ha : a ∉ updates.map Prod.fst) :
    ∀ e : Entity V,
      (apply_updates updates e).attrs.lookup a = e.attrs.lookup a := by
  induction updates with
  | nil => intro e; rfl
  | cons kv rest ih =>
    intro e
    have ha1 : a ≠ kv.1 := by
      intro hk
      exact ha (by simp [hk])
    have ha2 : a ∉ rest.map Prod.fst := fun hm => ha (by simp [hm])
    show (apply_updates rest _).attrs.lookup a = _
    rw [ih ha2]
    by_cases h : hasattr e kv.1
    · simp [h, setattr_lookup_ne _ _ _ _ ha1]
    · simp [h]

/-- With no duplicate keys in the map, an applied update lands: a supplied
key that is an attribute of the model ends up holding the supplied value. -/
lemma apply_updates_lookup_mem {V : Type} (updates : List (String × V)) :
    ∀ (e : Entity V) (k : String) (v : V), (updates.map Prod.fst).Nodup →
      (k, v) ∈ updates → hasattr e k = true →
      (apply_updates updates e).attrs.lookup k = some v := by
  induction updates with
  | nil => intro e k v _ hmem; simp at hmem
  | cons kv rest ih =>
    intro e k v hnodup hmem hk
    rcases List.mem_cons.mp hmem with heq | htail
    · subst heq
      have hknotin : k ∉ rest.map Prod.fst := by
        have := hnodup
        simp only [List.map_cons, List.nodup_cons] at this
        exact this.1
      show (apply_updates rest _).attrs.lookup k = some v
      rw [apply_updates_lookup_not_mem rest k hknotin]
      simp [hk, setattr_lookup_self e k v hk]
    · have hne : kv.1 ≠ k := by
        intro hkk
        have := hnodup
        simp only [List.map_cons, List.nodup_cons] at this
        exact this.1 (hkk ▸ (List.mem_map.mpr ⟨(k, v), htail, rfl⟩))
      have hnodup' : (rest.map Prod.fst).Nodup := by
        simp only [List.map_cons, List.nodup_cons] at hnodup
        exact hnodup.2
      show (apply_updates rest _).attrs.lookup k = some v
      by_cases h : hasattr e kv.1
      · simp only [h, if_pos]
        exact ih (setattr e kv.1 kv.2) k v hnodup' htail
          (by rw [hasattr_setattr]; exact hk)
      · simp only [h]
        exact ih e k v hnodup' htail hk

/-- Rows that do not satisfy the predicate survive `updateFirst`. -/
lemma updateFirst_mem_of_not {α : Type} (p : α → Bool) (f : α → α) :
    ∀ (l : List α) (x : α), x ∈ l → p x = false → x ∈ updateFirst p f l := by
  intro l
  induction l with
  | nil => intro x hx; simp at hx
  | cons y ys ih =>
    intro x hx hpx
    rcases List.mem_cons.mp hx with rfl | htail
    · rw [show updateFirst p f (x :: ys) = x :: updateFirst p f ys by
        conv_lhs => unfold updateFirst
        rw [hpx]
        simp]
      exact List.mem_cons_self x _
    · unfold updateFirst
      split
      · exact List.mem_cons_of_mem _ htail
      · exact List.mem_cons_of_mem _ (ih x htail hpx)

/-- C10: `BaseRepository.update` returns no value and leaves the store
untouched for an absent id; for a present id it returns the refreshed
entity, whose attribute names are unchanged (unknown update keys are
silently ignored), whose unnamed attributes keep their values, whose
`updated_at` is stamped to the current time whenever the model has that
attribute even if no supplied key applied, and in which each applied update
(unique keys) holds its supplied value; the store keeps its size and every
row with a different id. -/
theorem C10_repository_update :
    ∀ (V : Type) (now : V) (store : List (Entity V)) (entity_id : ℕ)
      (updates : List (String × V)),
      (store.find? (fun e => e.id == entity_id) = none →
        repository_update now store entity_id updates = (none, store)) ∧
      (∀ e, store.find? (fun e => e.id == entity_id) = some e →
        ∃ e2,
          repository_update now store entity_id updates =
            (some e2, updateFirst (fun x => x.id == entity_id) (fun _ => e2) store) ∧
          e2.attrs.map Prod.fst = e.attrs.map Prod.fst ∧
          (∀ a, a ∉ updates.map Prod.fst → a ≠ "updated_at" →
            e2.attrs.lookup a = e.attrs.lookup a) ∧
          (hasattr e "updated_at" = true →
            e2.attrs.lookup "updated_at" = some now) ∧
          ((updates.map Prod.fst).Nodup → ∀ k v, (k, v) ∈ updates →
            hasattr e k = true → k ≠ "updated_at" →
            e2.attrs.lookup k = some v) ∧
          (updateFirst (fun x => x.id == entity_id) (fun _ => e2) store).length =
            store.length ∧
          (∀ x ∈ store, (x.id == entity_id) = false →
            x ∈ updateFirst (fun x => x.id == entity_id) (fun _ => e2) store)) := by
  intro V now store entity_id updates
  constructor
  · intro h
    simp [repository_update, h]
  · intro e hfind
    refine ⟨(if hasattr (apply_updates updates e) "updated_at" then
        setattr (apply_updates updates e) "updated_at" now
      else apply_updates updates e), ?_, ?_, ?_, ?_, ?_,
      length_updateFirst _ _ store, fun x hx hxid =>
        updateFirst_mem_of_not _ _ store x hx hxid⟩
    · simp [repository_update, hfind]
    · by_cases h : hasattr (apply_updates updates e) "updated_at" <;>
        simp [h, setattr_keys, apply_updates_keys]
    · intro a hnot hne
      by_cases h : hasattr (apply_updates updates e) "updated_at"
      · rw [if_pos h, setattr_lookup_ne _ _ _ _ hne,
          apply_updates_lookup_not_mem updates a hnot]
      · rw [if_neg h, apply_updates_lookup_not_mem updates a hnot]
    · intro hupd
      have h : hasattr (apply_updates updates e) "updated_at" = true := by
        rw [hasattr_apply_updates]
        exact hupd
      rw [if_pos h, setattr_lookup_self _ _ _ h]
    · intro hnodup k v hmem hk hne
      have happly := apply_updates_lookup_mem updates e k v hnodup hmem hk
      by_cases h : hasattr (apply_updates updates e) "updated_at"
      · rw [if_pos h, setattr_lookup_ne _ _ _ _ hne, happly]
      · rw [if_neg h, happly]

/-- Witness for `C10_repository_update` at a concrete store over natural
values: an absent id leaves the store alone, and a present id yields an
entity with `name` applied, `bogus` ignored, and `updated_at` stamped. -/
theorem C10_repository_update_witness :
    repository_update (99 : ℕ) [] 5 [("name", 42)] = (none, []) ∧
    (∃ e2,
      repository_update (99 : ℕ)
          [⟨1, [("name", 10), ("updated_at", 0)]⟩] 1 [("name", 42), ("bogus", 7)] =
        (some e2, updateFirst (fun x => x.id == 1) (fun _ => e2)
          [⟨1, [("name", 10), ("updated_at", 0)]⟩]) ∧
      e2.attrs.map Prod.fst =
        (⟨1, [("name", 10), ("updated_at", 0)]⟩ : Entity ℕ).attrs.map Prod.fst ∧
      (∀ a, a ∉ (([("name", 42), ("bogus", 7)] : List (String × ℕ)).map Prod.fst) →
        a ≠ "updated_at" →
        e2.attrs.lookup a =
          (⟨1, [("name", 10), ("updated_at", 0)]⟩ : Entity ℕ).attrs.lookup a) ∧
      (hasattr (⟨1, [("name", 10), ("updated_at", 0)]⟩ : Entity ℕ) "updated_at"
          = true →
        e2.attrs.lookup "updated_at" = some 99) ∧
      ((([("name", 42), ("bogus", 7)] : List (String × ℕ)).map Prod.fst).Nodup →
        ∀ k v, (k, v) ∈ ([("name", 42), ("bogus", 7)] : List (String × ℕ)) →
        hasattr (⟨1, [("name", 10), ("updated_at", 0)]⟩ : Entity ℕ) k = true →
        k ≠ "updated_at" → e2.attrs.lookup k = some v) ∧
      (updateFirst (fun x => x.id == 1) (fun _ => e2)
          [⟨1, [("name", 10), ("updated_at", 0)]⟩]).length =
        ([⟨1, [("name", 10), ("updated_at", 0)]⟩] : List (Entity ℕ)).length ∧
      (∀ x ∈ ([⟨1, [("name", 10), ("updated_at", 0)]⟩] : List (Entity ℕ)),
        (x.id == 1) = false →
        x ∈ updateFirst (fun x => x.id == 1) (fun _ => e2)
          [⟨1, [("name", 10), ("updated_at", 0)]⟩])) := by
  constructor
  · exact (C10_repository_update ℕ 99 [] 5 [("name", 42)]).1 rfl
  · exact (C10_repository_update ℕ 99 [⟨1, [("name", 10), ("updated_at", 0)]⟩] 1
      [("name", 42), ("bogus", 7)]).2 ⟨1, [("name", 10), ("updated_at", 0)]⟩ rfl

end ChefLink
